import Mathlib

/-!
Shallow embedding of the core text-to-event extraction pipeline of
`scripts/fetch_today_kirchenblatt.py` (the messzeit.ch repository).

Strings are modelled as `List Char`.  The Python regular expressions that
drive the pipeline (`LINE_RE`, `TIME_RE`, `DATE_RE`, `MESSE_KEYWORDS`, the
`PLACE_NORMALIZE` rules, and the year-hint scan) are fixed patterns; each is
embedded as a hand-specialised backtracking matcher that follows the Python
`re` semantics (leftmost search position, ordered alternation, greedy
quantifiers with backtracking) for that concrete pattern.  Where a greedy
quantifier is followed by a character class disjoint from the quantified
class, maximal munch is used without a backtracking loop, since shrinking
the quantifier can never make the continuation succeed; each such spot is
noted in a comment.

Python's `\s`, `\d` and `\w` are Unicode-aware; this embedding models `\s`
as the six ASCII whitespace characters, `\d` as the ASCII digits and `\w`
as ASCII alphanumerics, underscore and the German letters that occur in the
script's vocabulary.  All concrete inputs appearing in the theorems below
stay inside that fragment, and the universally quantified theorems do not
depend on the exact extent of these classes.

Python `datetime` construction (which raises `ValueError` on out-of-range
fields) is embedded as an `Option`-returning constructor, and the pipeline
returns `Except` so that a raised exception is observable; `dateparser.parse`
(third-party) is embedded for exactly the two string shapes the script feeds
it: `"D.M.YYYY"` and `"D. MONTHNAME YYYY"` with German month names.
-/

deriving instance DecidableEq for Except

namespace Kirchenblatt

abbrev Str := List Char

/-- Python `\s` (ASCII fragment): the whitespace characters recognised by
`str.strip`, `\s` in the patterns, and the line classes used here. -/
def isPySpace (c : Char) : Bool :=
  c = ' ' || c = '\t' || c = '\n' || c = '\r' || c = '\x0b' || c = '\x0c'

/-- ASCII decimal digit, Python `\d` (ASCII fragment). -/
def isDigitCh (c : Char) : Bool := c.isDigit

/-- The German umlaut letters listed explicitly in the script's patterns. -/
def isUmlaut (c : Char) : Bool :=
  c = 'ä' || c = 'ö' || c = 'ü' || c = 'Ä' || c = 'Ö' || c = 'Ü'

/-- Character class of `DATE_RE`'s month-name fragment: `[A-Za-zäöüÄÖÜ]`. -/
def isMonNameChar (c : Char) : Bool := c.isAlpha || isUmlaut c

/-- Python `\w` (fragment): ASCII alphanumerics, underscore, and the German
letters appearing in the script's text. -/
def isWordChar (c : Char) : Bool :=
  c.isAlphanum || c = '_' || isUmlaut c || c = 'ß'

/-- Case folding used for the `re.I` patterns: ASCII letters plus the
umlauts named in the patterns. -/
def lowerChar (c : Char) : Char :=
  if c = 'Ä' then 'ä' else if c = 'Ö' then 'ö' else if c = 'Ü' then 'ü'
  else c.toLower

/-- Digit string to number, e.g. `"09"` to `9` (Python `int`). -/
def toNatDigits (l : Str) : Nat :=
  l.foldl (fun n c => n * 10 + (c.toNat - '0'.toNat)) 0

/-! ## `_norm` — the TextNormalizer -/

/-- `t.replace("­","")`: drop all soft hyphens. -/
def stripSoftHyphens (t : Str) : Str := t.filter (fun c => c ≠ '­')

/-- `re.sub(r"-\n","",t)`: remove hyphen–linebreak pairs, scanning left to
right over non-overlapping occurrences of the original string (`re.sub`
does not rescan replaced text). -/
def removeDashNl : Str → Str
  | [] => []
  | [c] => [c]
  | c :: c2 :: r =>
    if c = '-' && c2 = '\n' then removeDashNl r
    else c :: removeDashNl (c2 :: r)

/-- Is `"-\n"` a substring? (`removeDashNl` is the identity exactly on
strings without one.) -/
def hasDashNl : Str → Bool
  | [] => false
  | [_] => false
  | c :: c2 :: r => (c = '-' && c2 = '\n') || hasDashNl (c2 :: r)

/-- The class `[ \t]` of the whitespace-collapsing substitution. -/
def isBlank (c : Char) : Bool := c = ' ' || c = '\t'

/-- `re.sub(r"[ \t]+"," ",t)` as a left-to-right scan: `prevBlank` records
whether the previous character belonged to a blank run already emitted as a
single space. -/
def collapseWsGo : Bool → Str → Str
  | _, [] => []
  | prevBlank, c :: r =>
    if isBlank c then
      if prevBlank then collapseWsGo true r
      else ' ' :: collapseWsGo true r
    else c :: collapseWsGo false r

def collapseWs (t : Str) : Str := collapseWsGo false t

/-- `_norm`: soft-hyphen removal, then hyphen–linebreak joining, then blank
collapsing — in exactly the source order. -/
def norm (t : Str) : Str := collapseWs (removeDashNl (stripSoftHyphens t))

/-! ## `str.splitlines` and `str.strip` -/

/-- Line-break characters of `str.splitlines` (ASCII fragment). -/
def isLineBreak (c : Char) : Bool :=
  c = '\n' || c = '\r' || c = '\x0b' || c = '\x0c'

/-- Segments of a text between line breaks, including the (possibly empty)
trailing segment after the last break; `"\r\n"` counts as one break. -/
def splitlinesAux : Str → List Str
  | [] => [[]]
  | [c] => if isLineBreak c then [[], []] else [[c]]
  | c :: c2 :: r =>
    if c = '\r' && c2 = '\n' then [] :: splitlinesAux r
    else if isLineBreak c then [] :: splitlinesAux (c2 :: r)
    else
      match splitlinesAux (c2 :: r) with
      | [] => [[c]]
      | hd :: tl => (c :: hd) :: tl

/-- Python `str.splitlines`: like `splitlinesAux`, but the trailing segment
is dropped when it is empty (so `"a\n"` gives one line and `""` gives none). -/
def splitlines (t : Str) : List Str :=
  if (splitlinesAux t).getLast? = some ([] : Str) then (splitlinesAux t).dropLast
  else splitlinesAux t

/-- Strip characters satisfying `p` from both ends (Python `str.strip`). -/
def stripBoth (p : Char → Bool) (l : Str) : Str :=
  ((l.dropWhile p).reverse.dropWhile p).reverse

/-- Python `str.strip()` (no arguments): strip whitespace. -/
def pyStrip (l : Str) : Str := stripBoth isPySpace l

/-! ## `_year_hint` — first `\b20\d{2}\b` token -/

/-- Does `prev` (the character before the match position, `none` at the
start of the string) make a `\b` boundary before a word character? -/
def prevNonWord : Option Char → Bool
  | none => true
  | some c => !isWordChar c

/-- Is there a `\b` boundary after a word character, given the rest of the
string? -/
def endBoundary : Str → Bool
  | [] => true
  | c :: _ => !isWordChar c

/-- Match `\b(20\d{2})\b` anchored at the current position. -/
def matchYearAt (prev : Option Char) : Str → Option Nat
  | '2' :: '0' :: c2 :: c3 :: rest =>
    if prevNonWord prev && isDigitCh c2 && isDigitCh c3 && endBoundary rest then
      some (2000 + 10 * (c2.toNat - '0'.toNat) + (c3.toNat - '0'.toNat))
    else none
  | _ => none

/-- Leftmost match of `\b(20\d{2})\b`, i.e. the head of `re.findall`. -/
def yearScan (prev : Option Char) : Str → Option Nat
  | [] => none
  | c :: r =>
    match matchYearAt prev (c :: r) with
    | some y => some y
    | none => yearScan (some c) r

/-- `_year_hint`: first year-like token, else the current year (passed in
explicitly as `nowYear`, standing for `datetime.now(TZ).year`). -/
def yearHint (t : Str) (nowYear : Nat) : Nat :=
  match yearScan none t with
  | some y => y
  | none => nowYear

/-! ## `LINE_RE` — the LineRecognizer

`LINE_RE = (?P<wd>Mo|Di|…|Sonntag)\s+(?P<d>\d{1,2})[.\s](?:(?P<mon>\d{1,2})[.]|(?P<mon_name>[A-Za-zäöüÄÖÜ]+))\.?\s*(?P<y>\d{4})?\s+(?P<h>\d{1,2})[.:](?P<m>\d{2})(?:\s*Uhr)?\s+(?P<after>.+)$`
used with `.search`.  The matcher below is phase-by-phase; every ordered
alternative and every genuinely reachable backtracking point of the pattern
calls the full continuation, so a failing continuation falls through to the
next alternative exactly as in the `re` engine. -/

/-- The `WEEKDAYS` alternation, in the source's alternative order. -/
def WEEKDAYS : List Str :=
  ["Mo", "Di", "Mi", "Do", "Fr", "Sa", "So", "Montag", "Dienstag",
   "Mittwoch", "Donnerstag", "Freitag", "Samstag", "Sonntag"].map String.toList

/-- The named groups captured by a `LINE_RE` match. -/
structure Frag where
  wd : Str
  d : Str
  mon : Option Str
  monName : Option Str
  y : Option Str
  h : Str
  m : Str
  after : Str
deriving DecidableEq, Repr

/-- First alternative (in list order) whose continuation succeeds. -/
def firstSome {α β : Type} (xs : List α) (f : α → Option β) : Option β :=
  match xs with
  | [] => none
  | x :: r =>
    match f x with
    | some b => some b
    | none => firstSome r f

/-- `\s+` when the continuation starts with a non-whitespace class: greedy
maximal munch (shrinking would leave a whitespace character for the
continuation, which always fails).  Returns the rest after the run;
fails when no leading whitespace exists. -/
def matchWs1 (r : Str) : Option Str :=
  match r with
  | c :: _ => if isPySpace c then some (r.dropWhile isPySpace) else none
  | [] => none

/-- Trailing `\s+(?P<after>.+)$` of `LINE_RE` (lines contain no `\n`, so
`.` is unrestricted and `$` is the end).  Greedy `\s+` takes the whole
whitespace run; if nothing remains, the engine gives one whitespace
character back to `.+`, which then matches that single character. -/
def matchWsAfter (r : Str) : Option Str :=
  match r with
  | c :: _ =>
    if isPySpace c then
      let total := (r.takeWhile isPySpace).length
      let rest := r.drop total
      if rest.isEmpty then
        if 2 ≤ total then some (r.drop (total - 1)) else none
      else some rest
    else none
  | [] => none

/-- `(?:\s*Uhr)?\s+(?P<after>.+)$`: the optional group is tried first
(`\s*` maximal — `Uhr` starts with a non-whitespace character), and on
failure of the continuation the group is dropped. -/
def matchUhrThenAfter (r : Str) : Option Str :=
  let withUhr :=
    match r.dropWhile isPySpace with
    | 'U' :: 'h' :: 'r' :: r3 => matchWsAfter r3
    | _ => none
  match withUhr with
  | some a => some a
  | none => matchWsAfter r

/-- `TIME_RE` followed by the trailing part: `(?P<h>\d{1,2})[.:](?P<m>\d{2})`
then `matchUhrThenAfter`.  `\d{1,2}` is greedy: two digits are tried before
one, each with the full continuation. -/
def matchTime (r : Str) : Option (Str × Str × Str) :=
  let tryH (hds : Str) (r1 : Str) : Option (Str × Str × Str) :=
    match r1 with
    | s :: m1 :: m2 :: r2 =>
      if (s = '.' || s = ':') && isDigitCh m1 && isDigitCh m2 then
        match matchUhrThenAfter r2 with
        | some a => some (hds, [m1, m2], a)
        | none => none
      else none
    | _ => none
  match r with
  | c1 :: r1 =>
    if isDigitCh c1 then
      match r1 with
      | c2 :: r2 =>
        if isDigitCh c2 then
          match tryH [c1, c2] r2 with
          | some v => some v
          | none => tryH [c1] r1
        else tryH [c1] r1
      | [] => none
    else none
  | [] => none

/-- The tail of `DATE_RE` after the month part, joined with `LINE_RE`'s
following `\s+` and `TIME_RE`: `\.?\s*(?P<y>\d{4})?\s+TIME…`.

For the combined `\s*(\d{4})?\s+` the `re` engine first keeps `\s*`
maximal and tries the year (four digits immediately after the whitespace
run, then at least one more whitespace character); failing that, the year
group is dropped, and the only way `\s+` can then match is by `\s*` giving
up part of a nonempty whitespace run — which places `TIME_RE` exactly at
the first non-whitespace character.  The optional dot is consumed greedily;
retrying without consuming it cannot succeed (a dot is neither whitespace
nor a digit), so consumption is unconditional. -/
def matchTailAfterMonth (r : Str) : Option (Option Str × Str × Str × Str) :=
  let afterDot (r1 : Str) : Option (Option Str × Str × Str × Str) :=
    let w := r1.takeWhile isPySpace
    let r2 := r1.drop w.length
    let withYear :=
      match r2 with
      | a :: b :: c :: d :: r3 =>
        if isDigitCh a && isDigitCh b && isDigitCh c && isDigitCh d then
          match matchWs1 r3 with
          | some r4 =>
            match matchTime r4 with
            | some (h, m, aft) => some (some [a, b, c, d], h, m, aft)
            | none => none
          | none => none
        else none
      | _ => none
    match withYear with
    | some v => some v
    | none =>
      if w.isEmpty then none
      else
        match matchTime r2 with
        | some (h, m, aft) => some (none, h, m, aft)
        | none => none
  match r with
  | '.' :: r1 => afterDot r1
  | _ => afterDot r

/-- The month alternation of `DATE_RE`:
`(?:(?P<mon>\d{1,2})[.]|(?P<mon_name>[A-Za-zäöüÄÖÜ]+))…` — the numeric
branch first (two digits before one, each requiring the literal dot), then
the month-name branch.  The month name is a greedy maximal run of its
class; giving characters back cannot help, because the continuation
(`\.?\s*(\d{4})?\s+`) never matches a letter first. -/
def matchMonth (r : Str) : Option (Option Str × Option Str × Option Str × Str × Str × Str) :=
  let withTail (mon monName : Option Str) (rest : Str) :
      Option (Option Str × Option Str × Option Str × Str × Str × Str) :=
    match matchTailAfterMonth rest with
    | some (y, h, m, aft) => some (mon, monName, y, h, m, aft)
    | none => none
  let two :=
    match r with
    | c1 :: c2 :: '.' :: r2 =>
      if isDigitCh c1 && isDigitCh c2 then withTail (some [c1, c2]) none r2 else none
    | _ => none
  match two with
  | some v => some v
  | none =>
    let one :=
      match r with
      | c1 :: '.' :: r2 => if isDigitCh c1 then withTail (some [c1]) none r2 else none
      | _ => none
    match one with
    | some v => some v
    | none =>
      let nm := r.takeWhile isMonNameChar
      if nm.isEmpty then none
      else withTail none (some nm) (r.drop nm.length)

/-- `(?P<d>\d{1,2})[.\s]` followed by the month alternation: the day is
greedy (two digits tried before one, each with the full continuation),
then one separator character from the class `[.\s]`. -/
def matchDate (r : Str) :
    Option (Str × Option Str × Option Str × Option Str × Str × Str × Str) :=
  let withD (ds : Str) (r1 : Str) :
      Option (Str × Option Str × Option Str × Option Str × Str × Str × Str) :=
    match r1 with
    | s :: r2 =>
      if s = '.' || isPySpace s then
        match matchMonth r2 with
        | some (mon, mn, y, h, m, aft) => some (ds, mon, mn, y, h, m, aft)
        | none => none
      else none
    | [] => none
  match r with
  | c1 :: r1 =>
    if isDigitCh c1 then
      match r1 with
      | c2 :: r2 =>
        if isDigitCh c2 then
          match withD [c1, c2] r2 with
          | some v => some v
          | none => withD [c1] r1
        else withD [c1] r1
      | [] => none
    else none
  | [] => none

/-- `LINE_RE` anchored at the current position: a weekday alternative (in
order) whose full continuation — `\s+`, date, time, trailing text —
succeeds. -/
def matchFrom (l : Str) : Option Frag :=
  firstSome WEEKDAYS fun w =>
    if w.isPrefixOf l then
      match matchWs1 (l.drop w.length) with
      | some r1 =>
        match matchDate r1 with
        | some (d, mon, mn, y, h, m, aft) => some ⟨w, d, mon, mn, y, h, m, aft⟩
        | none => none
      | none => none
    else none

/-- `LINE_RE.search`: the leftmost position with a match wins. -/
def lineSearch : Str → Option Frag
  | [] => none
  | c :: r =>
    match matchFrom (c :: r) with
    | some g => some g
    | none => lineSearch r

/-! ## `_parse_date` — the DateResolver

The script formats the fragments into `"D.M.Y"` (numeric month) or
`"D. NAME Y"` (month name) and hands the string to `dateparser.parse`
with German language settings.  `dateparserParse` embeds that third-party
call for exactly these two shapes: German month-name lookup
(case-insensitive, full names and usual abbreviations), then calendar
validation; an unknown name or an impossible date yields `none`, as
`dateparser.parse` returns `None` there. -/

structure PyDate where
  y : Nat
  mo : Nat
  d : Nat
deriving DecidableEq, Repr

def isLeapYear (y : Nat) : Bool := (y % 4 = 0 && y % 100 ≠ 0) || y % 400 = 0

def daysInMonth (y mo : Nat) : Nat :=
  if mo = 2 then (if isLeapYear y then 29 else 28)
  else if mo = 4 || mo = 6 || mo = 9 || mo = 11 then 30
  else 31

/-- A calendar date acceptable to Python `datetime.date`. -/
def mkValidDate (y mo d : Nat) : Option PyDate :=
  if 1 ≤ y && y ≤ 9999 && 1 ≤ mo && mo ≤ 12 && 1 ≤ d && d ≤ daysInMonth y mo then
    some ⟨y, mo, d⟩
  else none

/-- German month names and abbreviations recognised by `dateparser`'s
German locale (compared after case folding). -/
def germanMonths : List (String × Nat) :=
  [("januar", 1), ("februar", 2), ("märz", 3), ("april", 4), ("mai", 5),
   ("juni", 6), ("juli", 7), ("august", 8), ("september", 9), ("oktober", 10),
   ("november", 11), ("dezember", 12), ("jan", 1), ("feb", 2), ("mär", 3),
   ("mrz", 3), ("apr", 4), ("jun", 6), ("jul", 7), ("aug", 8), ("sep", 9),
   ("sept", 9), ("okt", 10), ("nov", 11), ("dez", 12)]

def germanMonth (nm : Str) : Option Nat :=
  (germanMonths.find? (fun p => p.1.toList = nm.map lowerChar)).map (·.2)

/-- `dateparser.parse` on the two string shapes built by `_parse_date`. -/
def dateparserParse (dayDigits : Str) (monDigits : Option Str)
    (monName : Option Str) (year : Nat) : Option PyDate :=
  match monName with
  | some nm =>
    match germanMonth nm with
    | some mo => mkValidDate year mo (toNatDigits dayDigits)
    | none => none
  | none =>
    let mo := toNatDigits (monDigits.getD [])
    mkValidDate year mo (toNatDigits dayDigits)

/-- `y or yh`: the fragment's year group is `None` or a nonempty (hence
truthy) digit string, so the year used is the group's value when present
and the hint otherwise. -/
def yearOrHint (y : Option Str) (yh : Nat) : Nat :=
  match y with
  | some ys => toNatDigits ys
  | none => yh

/-- `_parse_date(d, mon, mon_name, y, yh)`. -/
def parseDate (d : Str) (mon monName y : Option Str) (yh : Nat) : Option PyDate :=
  dateparserParse d mon monName (yearOrHint y yh)

/-! ## Zoned timestamps

All `datetime` values in the script carry the fixed `Europe/Zurich` zone
and are built directly from local wall-clock fields (no conversion).
Comparison of aware datetimes in one zone is wall-clock-monotonic, and the
sort key `x["start"]` (the `isoformat` string, zero-padded fields with the
UTC offset last) orders identically to the wall-clock field tuple for the
single-day timestamps the pipeline produces; so a timestamp is embedded as
its wall-clock field tuple, ordered lexicographically via `DT.key`. -/

structure DT where
  y : Nat
  mo : Nat
  d : Nat
  h : Nat
  mi : Nat
  s : Nat
deriving DecidableEq, Repr

/-- Lexicographic encoding of the field tuple (fields of any valid
`datetime` fit the radices: month ≤ 12, day ≤ 31, hour ≤ 23, minute and
second ≤ 59). -/
def DT.key (t : DT) : Nat :=
  ((((t.y * 16 + t.mo) * 32 + t.d) * 32 + t.h) * 64 + t.mi) * 64 + t.s

def dtLe (a b : DT) : Bool := a.key ≤ b.key

/-- `datetime(y, mo, d, h, mi, tzinfo=TZ)`: `none` models the `ValueError`
raised on out-of-range fields (in the pipeline, hour > 23 or minute > 59). -/
def mkDatetime (y mo d h mi : Nat) : Option DT :=
  if 1 ≤ y && y ≤ 9999 && 1 ≤ mo && mo ≤ 12 && 1 ≤ d && d ≤ daysInMonth y mo
      && h ≤ 23 && mi ≤ 59 then
    some ⟨y, mo, d, h, mi, 0⟩
  else none

/-- `datetime(today.year, today.month, today.day, 0, 0, tzinfo=TZ)`. -/
def dayStart (d : PyDate) : DT := ⟨d.y, d.mo, d.d, 0, 0, 0⟩

/-- `datetime(today.year, today.month, today.day, 23, 59, 59, tzinfo=TZ)`. -/
def dayEnd (d : PyDate) : DT := ⟨d.y, d.mo, d.d, 23, 59, 59⟩

/-! ## `_split_title_place` — the TitlePlaceSplitter

`re.search(r"(Kathedrale|Kirche|Kapelle|St\.\s[\wÄÖÜäöüß.\- ]+)[^,]*", after)`
— only `m.start()` is used, and the trailing `[^,]*` always matches, so the
search reduces to the leftmost position where the alternation group
matches. -/

/-- Character class `[\wÄÖÜäöüß.\- ]` of the `St.` branch. -/
def isStTailChar (c : Char) : Bool := isWordChar c || c = '.' || c = '-' || c = ' '

/-- Does the location-indicator group match at the head of `l`? -/
def placeIndicatorAt (l : Str) : Bool :=
  ("Kathedrale".toList.isPrefixOf l) || ("Kirche".toList.isPrefixOf l) ||
  ("Kapelle".toList.isPrefixOf l) ||
  (match l with
   | 'S' :: 't' :: '.' :: c :: c2 :: _ => isPySpace c && isStTailChar c2
   | _ => false)

/-- Index of the leftmost indicator match (`m.start()`). -/
def findIndicatorIdx : Str → Option Nat
  | [] => none
  | c :: r =>
    if placeIndicatorAt (c :: r) then some 0
    else (findIndicatorIdx r).map (· + 1)

/-- `_split_title_place(after)`: on a match, the location is everything
from the match start (stripped of spaces and closing parentheses at both
ends) and the title is everything before it (stripped of spaces, dashes,
en-dashes and commas), defaulting to `"Messe"` when empty; otherwise the
whole stripped body is the title and there is no location. -/
def splitTitlePlace (after : Str) : Str × Option Str :=
  match findIndicatorIdx after with
  | some i =>
    let place := stripBoth (fun c => c = ' ' || c = ')') (after.drop i)
    let title := stripBoth (fun c => c = ' ' || c = '-' || c = '–' || c = ',') (after.take i)
    (if title.isEmpty then "Messe".toList else title, some place)
  | none => (pyStrip after, none)

/-! ## `MESSE_KEYWORDS` — `\b(Messe|Hl\.\s*Messe|Eucharistiefeier)\b`, `re.I`

Only the truthiness of `.search` is used, so the embedding is a Boolean
occurrence test: some position carries one of the three alternatives with a
word boundary on each side (every alternative begins and ends with a word
character, so the boundaries amount to a non-word or absent neighbour). -/

/-- Case-insensitive literal match; `lit` is given lowercased.  Returns the
rest of the string after the literal. -/
def ciLit (lit : Str) (l : Str) : Option Str :=
  match lit, l with
  | [], rest => some rest
  | _ :: _, [] => none
  | c :: cs, x :: xs => if lowerChar x = c then ciLit cs xs else none

/-- One keyword alternative anchored at the current position, with the
trailing `\b`.  In `Hl\.\s*Messe` the `\s*` is maximal (its continuation
starts with the letter `m`). -/
def kwAt (prev : Option Char) (l : Str) : Bool :=
  prevNonWord prev &&
  ((match ciLit "messe".toList l with
    | some r => endBoundary r
    | none => false) ||
   (match l with
    | c1 :: c2 :: '.' :: r =>
      lowerChar c1 = 'h' && lowerChar c2 = 'l' &&
      (match ciLit "messe".toList (r.dropWhile isPySpace) with
       | some r2 => endBoundary r2
       | none => false)
    | _ => false) ||
   (match ciLit "eucharistiefeier".toList l with
    | some r => endBoundary r
    | none => false))

/-- `bool(MESSE_KEYWORDS.search(s))`. -/
def messeKw : Str → Bool
  | [] => false
  | c :: r => kwAt none (c :: r) || messeKwFrom c r
where
  messeKwFrom (prev : Char) : Str → Bool
    | [] => false
    | c :: r => kwAt (some prev) (c :: r) || messeKwFrom c r

/-! ## `PLACE_NORMALIZE` — the PlaceNormalizer

Five ordered `re.sub(pat, repl, out, flags=re.I)` rules.  Each pattern has
the shape `\b LITERALS \b` with optional dots, optional suffixes and `\s*`
gaps; `matchRule…` returns the length of a match anchored at the current
position (the leading `\b` is checked against the preceding original
character).  `re.sub` rewrites non-overlapping matches left to right and
continues scanning the original string after each match. -/

/-- `\.?` before a `\s*`-then-letter continuation: consuming an available
dot is safe — if the continuation fails, retrying without the dot puts a
dot where a letter is required.  (Maximal-munch note for the pattern
engine.) -/
def optDot : Str → Str
  | '.' :: r => r
  | l => l

/-- `lit\b` at the head (case-insensitive), returning the rest. -/
def ciLitB (lit : Str) (l : Str) : Option Str :=
  match ciLit lit l with
  | some r => if endBoundary r then some r else none
  | none => none

/-- `\bKathedrale\s*St\.?\s*Urs(en)?\b` (the `(en)?` is greedy: with the
suffix first, each alternative checked against the trailing `\b`). -/
def matchRule1 (prev : Option Char) (l : Str) : Option Nat :=
  if prevNonWord prev then
    match ciLit "kathedrale".toList l with
    | some r1 =>
      match ciLit "st".toList (r1.dropWhile isPySpace) with
      | some r3 =>
        let r4 := (optDot r3).dropWhile isPySpace
        match ciLit "urs".toList r4 with
        | some r5 =>
          match ciLitB "en".toList r5 with
          | some r6 => some (l.length - r6.length)
          | none => if endBoundary r5 then some (l.length - r5.length) else none
        | none => none
      | none => none
    | none => none
  else none

/-- `\bSt\.?\s*STEM\b` for a literal stem (rules 2–4). -/
def matchStRule (stem : Str) (prev : Option Char) (l : Str) : Option Nat :=
  if prevNonWord prev then
    match ciLit "st".toList l with
    | some r1 =>
      match ciLitB stem ((optDot r1).dropWhile isPySpace) with
      | some r3 => some (l.length - r3.length)
      | none => none
    | none => none
  else none

/-- `\bSt\.?\s*Klem(e)?nz\b` (rule 5); the optional `(e)` is greedy. -/
def matchRule5 (prev : Option Char) (l : Str) : Option Nat :=
  if prevNonWord prev then
    match ciLit "st".toList l with
    | some r1 =>
      match ciLit "klem".toList ((optDot r1).dropWhile isPySpace) with
      | some r3 =>
        match ciLitB "enz".toList r3 with
        | some r4 => some (l.length - r4.length)
        | none =>
          match ciLitB "nz".toList r3 with
          | some r4 => some (l.length - r4.length)
          | none => none
      | none => none
    | none => none
  else none

/-- `re.sub` with a length-returning anchored matcher: non-overlapping
matches, scanning left to right, the scan resuming after the matched span
of the original string (the character preceding the next candidate is the
original's, for the next leading `\b`).  The `fuel` argument only makes the
recursion structural: every step consumes at least one character, so a fuel
of the string's length always suffices and the fuel-exhaustion branch is
never reached from `subAll`. -/
def subAllGo (rule : Option Char → Str → Option Nat) (repl : Str) :
    Nat → Option Char → Str → Str
  | _, _, [] => []
  | 0, _, l => l
  | fuel + 1, prev, c :: r =>
    match rule prev (c :: r) with
    | some n =>
      if 0 < n then
        repl ++ subAllGo rule repl fuel (some (((c :: r).take n).getLastD c))
          ((c :: r).drop n)
      else c :: subAllGo rule repl fuel (some c) r
    | none => c :: subAllGo rule repl fuel (some c) r

def subAll (rule : Option Char → Str → Option Nat) (repl : Str) (s : Str) : Str :=
  subAllGo rule repl s.length none s

/-- The ordered `PLACE_NORMALIZE` table (Python dicts iterate in insertion
order). -/
def placeRules : List ((Option Char → Str → Option Nat) × Str) :=
  [(matchRule1, "Kathedrale St. Ursen, Solothurn".toList),
   (matchStRule "marien".toList, "St. Marien, Solothurn".toList),
   (matchStRule "niklaus".toList, "St. Niklaus, Solothurn".toList),
   (matchStRule "eusebius".toList, "St. Eusebius, Grenchen".toList),
   (matchRule5, "St. Klemenz, Bettlach".toList)]

/-- The sequential rule application of `_normalize_place`'s loop. -/
def applyAllRules (s : Str) : Str :=
  placeRules.foldl (fun out pr => subAll pr.1 pr.2 out) s

/-- `_normalize_place`: `if not s: return s` — `None` and the empty string
pass through untouched; otherwise the full ordered rule table is applied. -/
def normalizePlace : Option Str → Option Str
  | none => none
  | some l => if l.isEmpty then some l else some (applyAllRules l)

/-! ## The main loop — EventFilter and EventCollector -/

/-- The durable output record (`kanton` and `source` are the fixed
per-document constants `"SO"` and `"kirchenblatt"`). -/
structure Event where
  title : Str
  start : DT
  location : Option Str
  kanton : Str
  source : Str
deriving DecidableEq, Repr

/-- One iteration of the `for raw in all_text.splitlines()` loop body, up
to the `items.append` (the append itself is in `collectGo`):
`ok none` models a `continue`, `ok (some e)` an appended event, and
`error` an uncaught exception (the `datetime` constructor's `ValueError`
for an out-of-range hour or minute). -/
def processLine (yh : Nat) (day : PyDate) (raw : Str) : Except String (Option Event) :=
  if (pyStrip raw).isEmpty then .ok none
  else
    match lineSearch (pyStrip raw) with
    | none => .ok none
    | some g =>
      match parseDate g.d g.mon g.monName g.y yh with
      | none => .ok none
      | some dt =>
        match mkDatetime dt.y dt.mo dt.d (toNatDigits g.h) (toNatDigits g.m) with
        | none => .error "ValueError: hour/minute out of range"
        | some w =>
          if dtLe (dayStart day) w && dtLe w (dayEnd day) then
            if messeKw (splitTitlePlace g.after).1 || messeKw g.after then
              .ok (some ⟨if (splitTitlePlace g.after).1.isEmpty then "Messe".toList
                         else (splitTitlePlace g.after).1, w,
                         normalizePlace (splitTitlePlace g.after).2,
                         "SO".toList, "kirchenblatt".toList⟩)
            else .ok none
          else .ok none

/-- The whole loop: events are appended in scan order; an exception aborts
the run (later lines are not processed). -/
def collectGo (yh : Nat) (day : PyDate) (acc : List Event) :
    List Str → Except String (List Event)
  | [] => .ok acc
  | l :: ls =>
    match processLine yh day l with
    | .error e => .error e
    | .ok none => collectGo yh day acc ls
    | .ok (some ev) => collectGo yh day (acc ++ [ev]) ls

/-- The accumulated (unsorted) item list for a document. -/
def collectItems (text : Str) (day : PyDate) (nowYear : Nat) :
    Except String (List Event) :=
  collectGo (yearHint (norm text) nowYear) day [] (splitlines (norm text))

/-- Stable insertion by non-decreasing start key: a new element goes in
front of the first existing element it is `≤`, i.e. in front of
equal-start elements that were scanned later — exactly the ordering of
Python's stable `list.sort(key=lambda x: x["start"])`. -/
def insertEv (x : Event) : List Event → List Event
  | [] => [x]
  | y :: ys => if dtLe x.start y.start then x :: y :: ys else y :: insertEv x ys

/-- `items.sort(key=lambda x: x["start"])`: a stable sort by start
timestamp (`sortEvents (e :: l)` inserts `e`, which precedes all of `l`
in scan order, before `l`'s equal-start elements). -/
def sortEvents : List Event → List Event
  | [] => []
  | x :: xs => insertEv x (sortEvents xs)

/-- The core pipeline: normalized text to the final sorted record list.
`text` is the already-extracted document text, `day` the target local day
and `nowYear` the current year used as the year-hint fallback. -/
def mainItems (text : Str) (day : PyDate) (nowYear : Nat) :
    Except String (List Event) :=
  (collectItems text day nowYear).map sortEvents

/-! ## Derived notions and concrete inputs used in the theorems below -/

/-- The ordering the collector sorts by: non-decreasing start timestamp. -/
abbrev evLe (a b : Event) : Prop := a.start.key ≤ b.start.key

/-- A line whose recognized time fragment (if any) is a valid wall-clock
time.  `processLine` can only raise on lines violating this. -/
def timeOkLine (line : Str) : Bool :=
  match lineSearch (pyStrip line) with
  | some g => decide (toNatDigits g.h ≤ 23) && decide (toNatDigits g.m ≤ 59)
  | none => true

/-- The scenario line of claim C1. -/
def c1text : Str :=
  "Sa 13.09.2025 18.30 Vorabendmesse Kathedrale St. Urs, Solothurn".toList

def c1day : PyDate := ⟨2025, 9, 13⟩

/-- The Event claim C1 says the pipeline emits for the scenario line. -/
def c1claimedEvent : Event :=
  ⟨"Vorabendmesse".toList, ⟨2025, 9, 13, 18, 30, 0⟩,
   some "Kathedrale St. Ursen, Solothurn".toList, "SO".toList, "kirchenblatt".toList⟩

/-- A recognized line with an out-of-range hour and minute (for C2). -/
def c2text : Str := "Sa 13.09.2025 99.99 Messe".toList

def w3text : Str := "Sa 13.9.2025 18.30 Messe".toList

def w3event : Event :=
  ⟨"Messe".toList, ⟨2025, 9, 13, 18, 30, 0⟩, none, "SO".toList, "kirchenblatt".toList⟩

/-- Three schedule lines, two sharing a start timestamp (for C4). -/
def w4text : Str :=
  ("Sa 13.9.2025 18.30 Messe A\nSa 13.9.2025 9.00 Messe B\n" ++
   "Sa 13.9.2025 18.30 Messe C").toList

def w4a : Event :=
  ⟨"Messe A".toList, ⟨2025, 9, 13, 18, 30, 0⟩, none, "SO".toList, "kirchenblatt".toList⟩

def w4b : Event :=
  ⟨"Messe B".toList, ⟨2025, 9, 13, 9, 0, 0⟩, none, "SO".toList, "kirchenblatt".toList⟩

def w4c : Event :=
  ⟨"Messe C".toList, ⟨2025, 9, 13, 18, 30, 0⟩, none, "SO".toList, "kirchenblatt".toList⟩

/-- A line whose `LINE_RE` match starts after a junk prefix (for C7). -/
def w7line : Str := "x Sa 13.9.2025 18.30 Messe".toList

def w7frag : Frag :=
  ⟨"Sa".toList, "13".toList, some "9".toList, none, some "2025".toList,
   "18".toList, "30".toList, "Messe".toList⟩

/-! ## Lemmas about the TextNormalizer -/

theorem mem_removeDashNl (c : Char) : ∀ (l : Str), c ∈ removeDashNl l → c ∈ l
  | [] => by simp [removeDashNl]
  | [x] => by simp [removeDashNl]
  | x :: x2 :: r => by
    simp only [removeDashNl]
    split
    · intro h
      exact List.mem_cons_of_mem _ (List.mem_cons_of_mem _ (mem_removeDashNl c r h))
    · intro h
      rcases List.mem_cons.mp h with h1 | h2
      · exact h1 ▸ List.mem_cons_self _ _
      · exact List.mem_cons_of_mem _ (mem_removeDashNl c (x2 :: r) h2)

theorem removeDashNl_of_not : ∀ (l : Str), hasDashNl l = false → removeDashNl l = l
  | [], _ => rfl
  | [x], _ => rfl
  | x :: x2 :: r, h => by
    simp only [hasDashNl, Bool.or_eq_false_iff] at h
    simp only [removeDashNl, h.1, Bool.false_eq_true, if_false]
    rw [removeDashNl_of_not (x2 :: r) h.2]

/-- Unfolding step of `collapseWsGo` at a blank character. -/
theorem collapseWsGo_blank {c : Char} (hb : isBlank c = true) (r : Str) :
    collapseWsGo true (c :: r) = collapseWsGo true r ∧
    collapseWsGo false (c :: r) = ' ' :: collapseWsGo true r := by
  constructor <;> simp [collapseWsGo, hb]

/-- Unfolding step of `collapseWsGo` at a non-blank character. -/
theorem collapseWsGo_nonblank {c : Char} (hb : isBlank c = false) (b : Bool) (r : Str) :
    collapseWsGo b (c :: r) = c :: collapseWsGo false r := by
  cases b <;> simp [collapseWsGo, hb]

theorem mem_collapseWsGo (c : Char) : ∀ (b : Bool) (l : Str),
    c ∈ collapseWsGo b l → c = ' ' ∨ c ∈ l
  | _, [] => by simp [collapseWsGo]
  | b, x :: r => by
    simp only [collapseWsGo]
    split
    · split
      · intro h
        rcases mem_collapseWsGo c true r h with h1 | h2
        · exact Or.inl h1
        · exact Or.inr (List.mem_cons_of_mem _ h2)
      · intro h
        rcases List.mem_cons.mp h with h1 | h2
        · exact Or.inl h1
        · rcases mem_collapseWsGo c true r h2 with h3 | h4
          · exact Or.inl h3
          · exact Or.inr (List.mem_cons_of_mem _ h4)
    · intro h
      rcases List.mem_cons.mp h with h1 | h2
      · exact Or.inr (h1 ▸ List.mem_cons_self _ _)
      · rcases mem_collapseWsGo c false r h2 with h3 | h4
        · exact Or.inl h3
        · exact Or.inr (List.mem_cons_of_mem _ h4)

theorem collapseWsGo_idem : ∀ (l : Str),
    collapseWsGo true (collapseWsGo true l) = collapseWsGo true l ∧
    collapseWsGo false (collapseWsGo false l) = collapseWsGo false l
  | [] => by simp [collapseWsGo]
  | c :: r => by
    have ih := collapseWsGo_idem r
    cases hb : isBlank c with
    | true =>
      refine ⟨?_, ?_⟩
      · rw [(collapseWsGo_blank hb r).1, ih.1]
      · rw [(collapseWsGo_blank hb r).2,
          (collapseWsGo_blank (show isBlank ' ' = true from rfl) _).2, ih.1]
    | false =>
      refine ⟨?_, ?_⟩
      · rw [collapseWsGo_nonblank hb true r, collapseWsGo_nonblank hb true _, ih.2]
      · rw [collapseWsGo_nonblank hb false r, collapseWsGo_nonblank hb false _, ih.2]

theorem collapseWs_idem (l : Str) : collapseWs (collapseWs l) = collapseWs l :=
  (collapseWsGo_idem l).2

/-- No soft hyphen survives `_norm` (the first step removes them all and
the later steps introduce nothing but spaces). -/
theorem softHyphen_not_mem_norm (t : Str) : '­' ∉ norm t := by
  intro h
  rcases mem_collapseWsGo _ _ _ h with h1 | h2
  · exact absurd h1 (by decide)
  · have h3 := mem_removeDashNl _ _ h2
    simp [stripSoftHyphens, List.mem_filter] at h3

theorem stripSoftHyphens_norm (t : Str) : stripSoftHyphens (norm t) = norm t := by
  apply List.filter_eq_self.mpr
  intro a ha
  have : a ≠ '­' := fun he => softHyphen_not_mem_norm t (he ▸ ha)
  simpa using this

/-! ## Claim C9 -/

/-- Claim C9 as stated is false: `_norm` is not idempotent.  The
hyphen–linebreak substitution rewrites non-overlapping occurrences of the
original string only, so `"--\n\n"` normalizes to `"-\n"` — which a second
pass removes. -/
theorem claim9_counterexample :
    norm (norm "--\n\n".toList) ≠ norm "--\n\n".toList := by decide

/-- Claim C9, amended: `_norm` is idempotent on every input whose
normalized form contains no `"-\n"` pair (the hyphen-join pass can leave
such a pair behind because `re.sub` does not rescan its own output; on all
other inputs a second application changes nothing). -/
theorem claim9_amended (t : Str) (h : hasDashNl (norm t) = false) :
    norm (norm t) = norm t := by
  show collapseWs (removeDashNl (stripSoftHyphens (norm t))) = norm t
  rw [stripSoftHyphens_norm, removeDashNl_of_not _ h]
  exact collapseWs_idem (removeDashNl (stripSoftHyphens t))

/-- Witness: the amended C9 applied to the concrete input `"a  b"`. -/
theorem claim9_witness :
    hasDashNl (norm "a  b".toList) = false ∧
      norm (norm "a  b".toList) = norm "a  b".toList :=
  ⟨by decide, claim9_amended _ (by decide)⟩

/-! ## Lemmas about `splitlines` -/

theorem splitlinesAux_ne_nil : ∀ (t : Str), splitlinesAux t ≠ []
  | [] => by simp [splitlinesAux]
  | [c] => by simp only [splitlinesAux]; split <;> simp
  | _ :: _ :: _ => by
    simp only [splitlinesAux]
    split
    · simp
    · split
      · simp
      · split <;> simp

/-- Step lemma: a non-break character prepends to the first segment. -/
theorem splitlinesAux_cons_nonbreak {c : Char} (hc : isLineBreak c = false) (X : Str) :
    splitlinesAux (c :: X) =
      (c :: (splitlinesAux X).headD []) :: (splitlinesAux X).tail := by
  have hcr : c ≠ '\r' := fun h => by rw [h] at hc; exact absurd hc (by decide)
  cases X with
  | nil => simp [splitlinesAux, hc]
  | cons d X' =>
    obtain ⟨hd, tl, he⟩ : ∃ hd tl, splitlinesAux (d :: X') = hd :: tl := by
      cases h : splitlinesAux (d :: X') with
      | nil => exact absurd h (splitlinesAux_ne_nil _)
      | cons a b => exact ⟨a, b, rfl⟩
    simp only [splitlinesAux]
    rw [if_neg (by simp [hcr]), if_neg (by simp [hc]), he]
    simp

/-- Step lemma: a break character (other than the first half of a
`"\r\n"` pair) closes an empty first segment. -/
theorem splitlinesAux_cons_break {c : Char} (hc : isLineBreak c = true)
    (X : Str) (hx : c = '\r' → X.head? ≠ some '\n') :
    splitlinesAux (c :: X) = [] :: splitlinesAux X := by
  cases X with
  | nil => simp [splitlinesAux, hc]
  | cons d X' =>
    have hnd : ¬((c = '\r' && d = '\n') = true) := by
      by_cases h1 : c = '\r'
      · have h2 := hx h1
        simp only [List.head?_cons, ne_eq, Option.some.injEq] at h2
        simp [h2]
      · simp [h1]
    simp only [splitlinesAux]
    rw [if_neg hnd, if_pos hc]

/-- Step lemma: a `"\r\n"` pair closes an empty first segment. -/
theorem splitlinesAux_crlf (X : Str) :
    splitlinesAux ('\r' :: '\n' :: X) = [] :: splitlinesAux X := by
  simp only [splitlinesAux]
  rw [if_pos (by simp)]

/-- The head of a collapsed nonempty string is the original head or a
space. -/
theorem collapseWs_cons_head (d : Char) (r : Str) :
    ∃ e Y, collapseWsGo false (d :: r) = e :: Y ∧ (e = ' ' ∨ e = d) := by
  cases hb : isBlank d with
  | false => exact ⟨d, _, collapseWsGo_nonblank hb false r, Or.inr rfl⟩
  | true => exact ⟨' ', _, (collapseWsGo_blank hb r).2, Or.inl rfl⟩

theorem splitlinesAux_collapseWsGo : ∀ (b : Bool) (t : Str),
    splitlinesAux (collapseWsGo b t) =
      collapseWsGo b ((splitlinesAux t).headD []) ::
        ((splitlinesAux t).tail).map collapseWs
  | b, [] => by simp [collapseWsGo, splitlinesAux]
  | b, c :: r => by
    obtain ⟨hd, tl, he⟩ : ∃ hd tl, splitlinesAux r = hd :: tl := by
      cases h : splitlinesAux r with
      | nil => exact absurd h (splitlinesAux_ne_nil r)
      | cons a b => exact ⟨a, b, rfl⟩
    cases hb : isBlank c with
    | true =>
      have hcb : isLineBreak c = false := by
        revert hb
        simp only [isBlank, isLineBreak, Bool.or_eq_true, decide_eq_true_eq]
        rintro (rfl | rfl) <;> decide
      have hrhs := splitlinesAux_cons_nonbreak hcb r
      cases b with
      | true =>
        rw [(collapseWsGo_blank hb r).1, splitlinesAux_collapseWsGo true r, hrhs]
        simp only [List.headD_cons, List.tail_cons]
        rw [(collapseWsGo_blank hb _).1]
      | false =>
        rw [(collapseWsGo_blank hb r).2,
          splitlinesAux_cons_nonbreak (by decide) (collapseWsGo true r),
          splitlinesAux_collapseWsGo true r, hrhs]
        simp only [List.headD_cons, List.tail_cons]
        rw [(collapseWsGo_blank hb _).2]
    | false =>
      rw [collapseWsGo_nonblank hb b r]
      by_cases hbr : isLineBreak c = true
      · by_cases hcr : c = '\r'
        · subst hcr
          cases r with
          | nil => cases b <;> decide
          | cons d r2 =>
            by_cases hdn : d = '\n'
            · subst hdn
              obtain ⟨hd2, tl2, he2⟩ : ∃ hd2 tl2, splitlinesAux r2 = hd2 :: tl2 := by
                cases h : splitlinesAux r2 with
                | nil => exact absurd h (splitlinesAux_ne_nil _)
                | cons a b => exact ⟨a, b, rfl⟩
              rw [collapseWsGo_nonblank (by decide) false r2, splitlinesAux_crlf,
                splitlinesAux_crlf, splitlinesAux_collapseWsGo false r2, he2]
              simp only [List.headD_cons, List.tail_cons, List.map_cons]
              rfl
            · obtain ⟨e, Y, hey, hor⟩ := collapseWs_cons_head d r2
              have hen : e ≠ '\n' := by
                rcases hor with rfl | rfl
                · decide
                · exact hdn
              rw [hey, splitlinesAux_cons_break (by decide) (e :: Y)
                  (fun _ => by simp [hen]),
                ← hey, splitlinesAux_collapseWsGo false (d :: r2),
                splitlinesAux_cons_break (by decide) (d :: r2)
                  (fun _ => by simp [hdn]), he]
              simp only [List.headD_cons, List.tail_cons, List.map_cons]
              rfl
        · rw [splitlinesAux_cons_break hbr (collapseWsGo false r)
              (fun h => absurd h hcr),
            splitlinesAux_collapseWsGo false r,
            splitlinesAux_cons_break hbr r (fun h => absurd h hcr), he]
          simp only [List.headD_cons, List.tail_cons, List.map_cons]
          rfl
      · have hbr' : isLineBreak c = false := by revert hbr; cases isLineBreak c <;> simp
        rw [splitlinesAux_cons_nonbreak hbr' (collapseWsGo false r),
          splitlinesAux_collapseWsGo false r,
          splitlinesAux_cons_nonbreak hbr' r, he]
        simp only [List.headD_cons, List.tail_cons]
        rw [collapseWsGo_nonblank hb b]
termination_by b t => t.length
decreasing_by all_goals (simp only [List.length_cons]; omega)

theorem collapseWs_eq_nil_iff (l : Str) : collapseWs l = [] ↔ l = [] := by
  cases l with
  | nil => simp [collapseWs, collapseWsGo]
  | cons c r =>
    simp only [collapseWs, collapseWsGo]
    split <;> simp

/-- Collapsing blank runs commutes with line splitting: each logical line
of the collapsed text is the collapse of the corresponding input line
(blank collapsing neither creates nor removes line breaks, and resets its
run state at every break). -/
theorem splitlines_collapseWs (t : Str) :
    splitlines (collapseWs t) = (splitlines t).map collapseWs := by
  obtain ⟨hd, tl, he⟩ : ∃ hd tl, splitlinesAux t = hd :: tl := by
    cases h : splitlinesAux t with
    | nil => exact absurd h (splitlinesAux_ne_nil t)
    | cons a b => exact ⟨a, b, rfl⟩
  have hmap : splitlinesAux (collapseWs t) = (splitlinesAux t).map collapseWs := by
    have h := splitlinesAux_collapseWsGo false t
    rw [he] at h
    simp only [List.headD_cons, List.tail_cons] at h
    rw [he]
    simpa using h
  unfold splitlines
  rw [hmap, List.getLast?_map]
  cases hl : (splitlinesAux t).getLast? with
  | none => rw [he] at hl; simp at hl
  | some last =>
    simp only [Option.map_some']
    by_cases he2 : last = []
    · subst he2
      rw [if_pos (by simp [show collapseWs ([] : Str) = [] from rfl]), if_pos rfl,
        List.map_dropLast]
    · rw [if_neg (by simp [collapseWs_eq_nil_iff, he2]), if_neg (by simp [he2])]

theorem splitlines_length_collapseWs (t : Str) :
    (splitlines (collapseWs t)).length = (splitlines t).length := by
  rw [splitlines_collapseWs, List.length_map]

/-! ## Claim C6 -/

/-- Claim C6 as stated is false: the hyphen–linebreak join of `_norm`
removes a line break, so the output can have fewer logical lines than the
input. -/
theorem claim6_counterexample :
    (splitlines (norm "a-\nb".toList)).length ≠ (splitlines "a-\nb".toList).length := by
  decide

/-- Claim C6, amended: for inputs containing no soft hyphen and no
hyphen–linebreak pair (the two rewrites that join lines), the normalizer
returns a string with the same number of logical lines, each line being
the internally whitespace-normalized form of the corresponding input line
(its `[ \t]+` runs collapsed to single spaces, i.e. `collapseWs`), and the
empty input yields the empty output. -/
theorem claim6_amended :
    (∀ t : Str, stripSoftHyphens t = t → hasDashNl t = false →
      splitlines (norm t) = (splitlines t).map collapseWs ∧
      (splitlines (norm t)).length = (splitlines t).length) ∧
    norm [] = [] := by
  constructor
  · intro t h1 h2
    have hn : norm t = collapseWs t := by
      show collapseWs (removeDashNl (stripSoftHyphens t)) = collapseWs t
      rw [h1, removeDashNl_of_not t h2]
    rw [hn, splitlines_collapseWs]
    exact ⟨rfl, List.length_map _ _⟩
  · rfl

/-- Witness: the amended C6 applied to the concrete input `"a \tb\nc"`. -/
theorem claim6_witness :
    stripSoftHyphens "a \tb\nc".toList = "a \tb\nc".toList ∧
      hasDashNl "a \tb\nc".toList = false ∧
      (splitlines (norm "a \tb\nc".toList) =
          (splitlines "a \tb\nc".toList).map collapseWs ∧
        (splitlines (norm "a \tb\nc".toList)).length =
          (splitlines "a \tb\nc".toList).length) :=
  ⟨by decide, by decide, claim6_amended.1 _ (by decide) (by decide)⟩

/-! ## Lemmas about the DateResolver -/

theorem mkValidDate_some {y mo d : Nat} {t : PyDate}
    (h : mkValidDate y mo d = some t) :
    t = ⟨y, mo, d⟩ ∧
      (1 ≤ y && y ≤ 9999 && 1 ≤ mo && mo ≤ 12 && 1 ≤ d && d ≤ daysInMonth y mo)
        = true := by
  unfold mkValidDate at h
  split at h
  · exact ⟨(Option.some.inj h).symm, by assumption⟩
  · exact absurd h (by simp)

theorem parseDate_some {ds : Str} {mon monName y : Option Str} {yh : Nat}
    {dt : PyDate} (h : parseDate ds mon monName y yh = some dt) :
    dt.y = yearOrHint y yh ∧
      (1 ≤ dt.y && dt.y ≤ 9999 && 1 ≤ dt.mo && dt.mo ≤ 12 && 1 ≤ dt.d &&
        dt.d ≤ daysInMonth dt.y dt.mo) = true := by
  unfold parseDate dateparserParse at h
  split at h
  · split at h
    · obtain ⟨h1, h2⟩ := mkValidDate_some h
      subst h1
      exact ⟨rfl, h2⟩
    · exact absurd h (by simp)
  · obtain ⟨h1, h2⟩ := mkValidDate_some h
    subst h1
    exact ⟨rfl, h2⟩

/-! ## Claim C8 -/

/-- Claim C8: the DateResolver uses the fragment's 4-digit year when one is
present and the document year hint otherwise (`y or yh` on a year group
that is `None` or a nonempty digit string). -/
theorem claim8 (ds : Str) (mon monName y : Option Str) (yh : Nat) (dt : PyDate)
    (h : parseDate ds mon monName y yh = some dt) :
    dt.y = yearOrHint y yh :=
  (parseDate_some h).1

/-- Witness: C8 at the spec's own scenario — a date fragment with no year
and a document year hint of 2025 resolves to year 2025. -/
theorem claim8_witness :
    parseDate "13".toList none (some "September".toList) none 2025 =
        some ⟨2025, 9, 13⟩ ∧
      (PyDate.mk 2025 9 13).y = yearOrHint none 2025 :=
  ⟨by decide, claim8 "13".toList none (some "September".toList) none 2025 _ (by decide)⟩

/-! ## Claim C10 -/

/-- Claim C10: `_normalize_place` passes `None` and the empty string
through untouched (both are falsy), and applies the full ordered rule
table to every nonempty location string. -/
theorem claim10 :
    normalizePlace none = none ∧ normalizePlace (some []) = some [] ∧
      ∀ s : Str, s ≠ [] → normalizePlace (some s) = some (applyAllRules s) := by
  refine ⟨rfl, rfl, ?_⟩
  intro s hs
  have hdef : normalizePlace (some s) =
      if s.isEmpty then some s else some (applyAllRules s) := rfl
  rw [hdef, if_neg (by simpa using hs)]

/-- Witness: C10 applied to the concrete location `"Kathedrale St. Urs"`. -/
theorem claim10_witness :
    ("Kathedrale St. Urs".toList : Str) ≠ [] ∧
      normalizePlace (some "Kathedrale St. Urs".toList) =
        some (applyAllRules "Kathedrale St. Urs".toList) :=
  ⟨by decide, claim10.2.2 "Kathedrale St. Urs".toList (by decide)⟩

/-! ## Claim C1 -/

/-- Claim C1 as stated is false: the pipeline does not emit the claimed
Event for the scenario line (it emits nothing at all — see
`claim1_amended`). -/
theorem claim1_counterexample :
    mainItems c1text c1day 2025 ≠ Except.ok [c1claimedEvent] := by decide

/-- Claim C1, amended: for the scenario line the pipeline emits zero
Events.  The keyword pattern `\b(Messe|Hl\.\s*Messe|Eucharistiefeier)\b`
requires word boundaries, and in `"Vorabendmesse"` the substring `"Messe"`
is preceded by the word character `d`; neither the split-off title
`"Vorabendmesse"` nor the full trailing body contains a standalone
keyword, so the line is dropped by the keyword filter.  (Had the filter
passed, the emitted location would have been
`"Kathedrale St. Ursen, Solothurn, Solothurn"`: the rewrite rule replaces
only the matched span `"Kathedrale St. Urs"`, leaving the original
`", Solothurn"` tail in place.) -/
theorem claim1_amended : mainItems c1text c1day 2025 = Except.ok [] := by decide

/-! ## Lemmas about the main loop -/

/-- Characterization of a line that contributes an Event: its stripped text
matches `LINE_RE`, the Event's timestamp passed the inclusive day-window
guard, and the keyword filter accepted the split title or the trailing
body. -/
theorem processLine_some {yh : Nat} {day : PyDate} {raw : Str} {e : Event}
    (h : processLine yh day raw = .ok (some e)) :
    ∃ g, lineSearch (pyStrip raw) = some g ∧
      dtLe (dayStart day) e.start = true ∧ dtLe e.start (dayEnd day) = true ∧
      (messeKw (splitTitlePlace g.after).1 || messeKw g.after) = true := by
  unfold processLine at h
  split at h
  · exact absurd h (by simp)
  · split at h
    · exact absurd h (by simp)
    · next g heq =>
      split at h
      · exact absurd h (by simp)
      · split at h
        · exact absurd h (by simp)
        · next w hw =>
          split at h
          · next hwin =>
            split at h
            · next hkw =>
              obtain rfl : _ = e := Option.some.inj (Except.ok.inj h)
              simp only [Bool.and_eq_true] at hwin
              exact ⟨g, heq, hwin.1, hwin.2, hkw⟩
            · exact absurd h (by simp)
          · exact absurd h (by simp)

/-- Every element of a successful loop run comes from the accumulator or
from some processed line. -/
theorem collectGo_mem {yh : Nat} {day : PyDate} : ∀ (ls : List Str)
    (acc out : List Event), collectGo yh day acc ls = .ok out →
    ∀ e ∈ out, e ∈ acc ∨ ∃ l, l ∈ ls ∧ processLine yh day l = .ok (some e) := by
  intro ls
  induction ls with
  | nil =>
    intro acc out h e he
    unfold collectGo at h
    cases Except.ok.inj h
    exact Or.inl he
  | cons l ls ih =>
    intro acc out h e he
    unfold collectGo at h
    split at h
    · exact absurd h (by simp)
    · rcases ih acc out h e he with h1 | ⟨lx, hlx, hp⟩
      · exact Or.inl h1
      · exact Or.inr ⟨lx, List.mem_cons_of_mem _ hlx, hp⟩
    · next ev heq =>
      rcases ih _ out h e he with h1 | ⟨lx, hlx, hp⟩
      · rcases List.mem_append.mp h1 with h2 | h3
        · exact Or.inl h2
        · have h4 : e = ev := by simpa using h3
          exact Or.inr ⟨l, List.mem_cons_self _ _, h4 ▸ heq⟩
      · exact Or.inr ⟨lx, List.mem_cons_of_mem _ hlx, hp⟩

/-! ## Lemmas about the sort -/

theorem mem_insertEv {x e : Event} : ∀ {l : List Event},
    e ∈ insertEv x l ↔ e = x ∨ e ∈ l := by
  intro l
  induction l with
  | nil => simp [insertEv]
  | cons y ys ih =>
    unfold insertEv
    split
    · simp only [List.mem_cons]
    · simp only [List.mem_cons, ih]
      tauto

theorem mem_sortEvents {e : Event} : ∀ {l : List Event},
    e ∈ sortEvents l ↔ e ∈ l := by
  intro l
  induction l with
  | nil => simp [sortEvents]
  | cons x xs ih =>
    unfold sortEvents
    rw [mem_insertEv, List.mem_cons, ih]

theorem pairwise_insertEv {x : Event} : ∀ {l : List Event},
    l.Pairwise evLe → (insertEv x l).Pairwise evLe := by
  intro l
  induction l with
  | nil => intro _; simp [insertEv, List.pairwise_cons]
  | cons y ys ih =>
    intro hp
    rw [List.pairwise_cons] at hp
    unfold insertEv
    split
    · next hxy =>
      rw [List.pairwise_cons]
      refine ⟨?_, List.pairwise_cons.mpr hp⟩
      intro z hz
      rcases List.mem_cons.mp hz with rfl | hz2
      · exact of_decide_eq_true hxy
      · exact Nat.le_trans (of_decide_eq_true hxy) (hp.1 z hz2)
    · next hxy =>
      rw [List.pairwise_cons]
      refine ⟨?_, ih hp.2⟩
      intro z hz
      rcases mem_insertEv.mp hz with rfl | hz2
      · exact Nat.le_of_not_le (fun hle => hxy (decide_eq_true hle))
      · exact hp.1 z hz2

/-- The sorted output is in non-decreasing start order. -/
theorem sortEvents_pairwise : ∀ (l : List Event), (sortEvents l).Pairwise evLe
  | [] => by simp [sortEvents]
  | x :: xs => pairwise_insertEv (sortEvents_pairwise xs)

theorem filter_insertEv (t : DT) (x : Event) : ∀ (l : List Event),
    (insertEv x l).filter (fun e => decide (e.start = t)) =
      if x.start = t then x :: l.filter (fun e => decide (e.start = t))
      else l.filter (fun e => decide (e.start = t)) := by
  intro l
  induction l with
  | nil =>
    by_cases hx : x.start = t <;> simp [insertEv, List.filter, hx]
  | cons y ys ih =>
    unfold insertEv
    split
    · next hxy =>
      by_cases hx : x.start = t <;> simp [List.filter_cons, hx]
    · next hxy =>
      by_cases hx : x.start = t
      · have hy : y.start ≠ t := by
          intro hyt
          exact hxy (by simp [dtLe, show x.start = y.start from hx.trans hyt.symm])
        rw [if_pos hx]
        have hstep : (y :: insertEv x ys).filter (fun e => decide (e.start = t)) =
            (insertEv x ys).filter (fun e => decide (e.start = t)) := by
          simp [List.filter_cons, hy]
        rw [hstep, ih, if_pos hx]
        have hstep2 : (y :: ys).filter (fun e => decide (e.start = t)) =
            ys.filter (fun e => decide (e.start = t)) := by
          simp [List.filter_cons, hy]
        rw [hstep2]
      · rw [if_neg hx]
        by_cases hy : y.start = t <;>
          simp [List.filter_cons, hy, ih, hx]

/-- Stability of the sort: the subsequence of events with any fixed start
timestamp is exactly the scan-order subsequence. -/
theorem filter_sortEvents (t : DT) : ∀ (l : List Event),
    (sortEvents l).filter (fun e => decide (e.start = t)) =
      l.filter (fun e => decide (e.start = t)) := by
  intro l
  induction l with
  | nil => simp [sortEvents]
  | cons x xs ih =>
    unfold sortEvents
    rw [filter_insertEv]
    by_cases hx : x.start = t
    · rw [if_pos hx, ih]
      simp [List.filter_cons, hx]
    · rw [if_neg hx, ih]
      simp [List.filter_cons, hx]

/-- Every member of a successful pipeline run was produced by
`processLine` on some line of the normalized, split text. -/
theorem mainItems_mem {text : Str} {day : PyDate} {nowYear : Nat}
    {items : List Event} {e : Event}
    (h : mainItems text day nowYear = .ok items) (he : e ∈ items) :
    ∃ l, l ∈ splitlines (norm text) ∧
      processLine (yearHint (norm text) nowYear) day l = .ok (some e) := by
  unfold mainItems at h
  cases hc : collectItems text day nowYear with
  | error msg => rw [hc] at h; exact absurd h (by simp [Except.map])
  | ok pre =>
    rw [hc] at h
    simp only [Except.map] at h
    obtain rfl := Except.ok.inj h
    have hpre : e ∈ pre := mem_sortEvents.mp he
    unfold collectItems at hc
    rcases collectGo_mem _ [] pre hc e hpre with h1 | ⟨l, hl, hp⟩
    · exact absurd h1 (List.not_mem_nil e)
    · exact ⟨l, hl, hp⟩

/-! ## Claim C3 -/

/-- Claim C3: every Event in the pipeline's output has a start timestamp
within the inclusive window from local midnight to local 23:59:59 of the
target day (wall clock in the fixed Europe/Zurich zone). -/
theorem claim3 (text : Str) (day : PyDate) (nowYear : Nat) (items : List Event)
    (h : mainItems text day nowYear = .ok items) :
    ∀ e ∈ items, dtLe (dayStart day) e.start = true ∧
      dtLe e.start (dayEnd day) = true := by
  intro e he
  obtain ⟨l, _, hp⟩ := mainItems_mem h he
  obtain ⟨g, _, h1, h2, _⟩ := processLine_some hp
  exact ⟨h1, h2⟩

/-- Witness: C3 applied to a run that emits one Event. -/
theorem claim3_witness :
    mainItems w3text ⟨2025, 9, 13⟩ 2025 = .ok [w3event] ∧
      (dtLe (dayStart ⟨2025, 9, 13⟩) w3event.start = true ∧
        dtLe w3event.start (dayEnd ⟨2025, 9, 13⟩) = true) :=
  ⟨by decide, claim3 w3text ⟨2025, 9, 13⟩ 2025 [w3event] (by decide) w3event
    (List.mem_singleton.mpr rfl)⟩

/-! ## Claim C5 -/

/-- Claim C5: an Event is emitted only if the split-off title or the
line's original trailing body contains a keyword of the fixed liturgical
set (`MESSE_KEYWORDS`, matched case-insensitively at word boundaries). -/
theorem claim5 (text : Str) (day : PyDate) (nowYear : Nat) (items : List Event)
    (h : mainItems text day nowYear = .ok items) :
    ∀ e ∈ items, ∃ l g, l ∈ splitlines (norm text) ∧
      lineSearch (pyStrip l) = some g ∧
      (messeKw (splitTitlePlace g.after).1 || messeKw g.after) = true := by
  intro e he
  obtain ⟨l, hl, hp⟩ := mainItems_mem h he
  obtain ⟨g, hg, _, _, hkw⟩ := processLine_some hp
  exact ⟨l, g, hl, hg, hkw⟩

/-- Witness: C5 applied to a run that emits one Event. -/
theorem claim5_witness :
    mainItems w3text ⟨2025, 9, 13⟩ 2025 = .ok [w3event] ∧
      ∃ l g, l ∈ splitlines (norm w3text) ∧ lineSearch (pyStrip l) = some g ∧
        (messeKw (splitTitlePlace g.after).1 || messeKw g.after) = true :=
  ⟨by decide, claim5 w3text ⟨2025, 9, 13⟩ 2025 [w3event] (by decide) w3event
    (List.mem_singleton.mpr rfl)⟩

/-! ## Claim C4 -/

/-- Claim C4: the pipeline's output is the collected sequence sorted in
non-decreasing start order, and the sort is stable — for every timestamp,
the events carrying it appear in the same relative order as in the scan. -/
theorem claim4 (text : Str) (day : PyDate) (nowYear : Nat) (pre : List Event)
    (h : collectItems text day nowYear = .ok pre) :
    mainItems text day nowYear = .ok (sortEvents pre) ∧
      (sortEvents pre).Pairwise evLe ∧
      ∀ t : DT, (sortEvents pre).filter (fun e => decide (e.start = t)) =
        pre.filter (fun e => decide (e.start = t)) := by
  refine ⟨?_, sortEvents_pairwise pre, fun t => filter_sortEvents t pre⟩
  unfold mainItems
  rw [h]
  rfl

/-- Witness: C4 applied to a run with two equal start timestamps. -/
theorem claim4_witness :
    collectItems w4text ⟨2025, 9, 13⟩ 2025 = .ok [w4a, w4b, w4c] ∧
      (mainItems w4text ⟨2025, 9, 13⟩ 2025 = .ok (sortEvents [w4a, w4b, w4c]) ∧
        (sortEvents [w4a, w4b, w4c]).Pairwise evLe ∧
        ∀ t : DT, (sortEvents [w4a, w4b, w4c]).filter (fun e => decide (e.start = t)) =
          [w4a, w4b, w4c].filter (fun e => decide (e.start = t))) :=
  ⟨by decide, claim4 w4text ⟨2025, 9, 13⟩ 2025 [w4a, w4b, w4c] (by decide)⟩

/-! ## Claim C7 -/

/-- Claim C7: the LineRecognizer produces fragments only when (a suffix
of) the line fits the anchored grammar — weekday token, then date
fragment, time fragment and body, as embodied by `matchFrom` — and a line
it does not recognize is skipped without affecting the processing of the
other lines. -/
theorem claim7 :
    (∀ (l : Str) (g : Frag), lineSearch l = some g →
      ∃ n, matchFrom (l.drop n) = some g) ∧
    (∀ (yh : Nat) (day : PyDate) (acc : List Event) (l : Str)
      (pre post : List Str), processLine yh day l = .ok none →
      collectGo yh day acc (pre ++ l :: post) = collectGo yh day acc (pre ++ post)) := by
  constructor
  · intro l
    induction l with
    | nil => intro g h; exact absurd h (by simp [lineSearch])
    | cons c r ih =>
      intro g h
      unfold lineSearch at h
      split at h
      · next heq => exact ⟨0, by rw [List.drop_zero, heq, h]⟩
      · obtain ⟨n, hn⟩ := ih g h
        exact ⟨n + 1, by rwa [List.drop_succ_cons]⟩
  · intro yh day acc l pre post hskip
    induction pre generalizing acc with
    | nil =>
      simp only [List.nil_append]
      simp only [collectGo, hskip]
    | cons p pre ih =>
      simp only [List.cons_append]
      cases hp : processLine yh day p with
      | error msg => simp only [collectGo, hp]
      | ok o =>
        cases o with
        | none => simp only [collectGo, hp]; exact ih acc
        | some ev => simp only [collectGo, hp]; exact ih (acc ++ [ev])

/-- Witness: both halves of C7 at concrete inputs — a recognized line
(whose match starts after a leading junk prefix) and a skipped line inside
a three-line run. -/
theorem claim7_witness :
    (lineSearch w7line = some w7frag ∧ ∃ n, matchFrom (w7line.drop n) = some w7frag) ∧
      (processLine 2025 ⟨2025, 9, 13⟩ "junk".toList = .ok none ∧
        collectGo 2025 ⟨2025, 9, 13⟩ [] [w3text, "junk".toList] =
          collectGo 2025 ⟨2025, 9, 13⟩ [] [w3text]) :=
  ⟨⟨by decide, claim7.1 w7line w7frag (by decide)⟩,
   ⟨by decide, claim7.2 2025 ⟨2025, 9, 13⟩ [] "junk".toList [w3text] [] (by decide)⟩⟩

/-! ## Claim C2 -/

theorem processLine_ok (yh : Nat) (day : PyDate) (raw : Str)
    (hok : timeOkLine raw = true) : ∃ o, processLine yh day raw = .ok o := by
  unfold processLine
  split
  · exact ⟨none, rfl⟩
  · split
    · exact ⟨none, rfl⟩
    · next g heq =>
      split
      · exact ⟨none, rfl⟩
      · next dt hdt =>
        have hmk : mkDatetime dt.y dt.mo dt.d (toNatDigits g.h) (toNatDigits g.m) =
            some ⟨dt.y, dt.mo, dt.d, toNatDigits g.h, toNatDigits g.m, 0⟩ := by
          have hvalid := (parseDate_some hdt).2
          unfold timeOkLine at hok
          rw [heq] at hok
          unfold mkDatetime
          rw [if_pos]
          simp only [Bool.and_eq_true, decide_eq_true_eq] at hvalid hok ⊢
          exact ⟨⟨hvalid, hok.1⟩, hok.2⟩
        split
        · next hmkNone => rw [hmk] at hmkNone; exact absurd hmkNone (by simp)
        · split
          · split
            · exact ⟨some _, rfl⟩
            · exact ⟨none, rfl⟩
          · exact ⟨none, rfl⟩

theorem collectGo_okAll (yh : Nat) (day : PyDate) : ∀ (ls : List Str)
    (acc : List Event), (∀ l ∈ ls, timeOkLine l = true) →
    ∃ out, collectGo yh day acc ls = .ok out := by
  intro ls
  induction ls with
  | nil => intro acc _; exact ⟨acc, rfl⟩
  | cons l ls ih =>
    intro acc hall
    obtain ⟨o, ho⟩ := processLine_ok yh day l (hall l (List.mem_cons_self _ _))
    cases o with
    | none =>
      obtain ⟨out, hout⟩ := ih acc (fun x hx => hall x (List.mem_cons_of_mem _ hx))
      exact ⟨out, by simp only [collectGo, ho]; exact hout⟩
    | some ev =>
      obtain ⟨out, hout⟩ := ih (acc ++ [ev]) (fun x hx => hall x (List.mem_cons_of_mem _ hx))
      exact ⟨out, by simp only [collectGo, ho]; exact hout⟩

/-- Claim C2 as stated is false: a line that `LINE_RE` recognizes with an
out-of-range time (hour 99, minute 99) reaches the `datetime` constructor,
whose `ValueError` is not caught anywhere in the loop, so the exception
propagates out of the pipeline instead of the line being omitted. -/
theorem claim2_counterexample :
    mainItems c2text ⟨2025, 9, 13⟩ 2025 =
      Except.error "ValueError: hour/minute out of range" := by decide

/-- Claim C2, amended: lines that fail line recognition or date resolution
are silently skipped and processing continues; no exception propagates as
long as every recognized time fragment is a valid wall-clock time (hour at
most 23, minute at most 59).  A recognized line violating that raises an
uncaught `ValueError` (see the counterexample). -/
theorem claim2_amended (text : Str) (day : PyDate) (nowYear : Nat)
    (h : (splitlines (norm text)).all timeOkLine = true) :
    ∃ items, mainItems text day nowYear = .ok items := by
  obtain ⟨out, hout⟩ := collectGo_okAll (yearHint (norm text) nowYear) day
    (splitlines (norm text)) [] (List.all_eq_true.mp h)
  refine ⟨sortEvents out, ?_⟩
  unfold mainItems collectItems
  rw [hout]
  rfl

/-- Witness: the amended C2 applied to a document whose lines (one
recognized schedule line, one junk line) all carry in-range times. -/
theorem claim2_witness :
    (splitlines (norm ("junk\nSa 13.9.2025 18.30 Messe").toList)).all timeOkLine = true ∧
      ∃ items, mainItems ("junk\nSa 13.9.2025 18.30 Messe").toList
        ⟨2025, 9, 13⟩ 2025 = .ok items :=
  ⟨by decide, claim2_amended _ ⟨2025, 9, 13⟩ 2025 (by decide)⟩

end Kirchenblatt
